import Mathlib

/-! Arcfour (carcfour/main.c): a shallow embedding.

The C functions `ksa_sbox`, `prga` and `crypt` of `src/carcfour/main.c` are
embedded as Lean functions over byte buffers.

* A buffer (`unsigned char[]`) is a `List Nat`; every store reduces the stored
  value modulo 256, as a store to an `unsigned char` does.
* Behaviour that C leaves undefined is a `Fault`: a modulo by zero, a read
  outside the buffer, a write outside the buffer.  Functions return `Except Fault _`.
* A `for` loop is a recursive function whose first argument is the number of
  iterations still to run; the loop counter is carried next to it.
* `strlen` is the C library function: the index of the first zero byte.
* The two local arrays of `crypt` (`sbox` and the variable-length `stream`)
  start with indeterminate contents; `crypt` receives these contents as the
  two functions `sboxInit` and `streamInit`.
* Loop counters are `int` in the source and lengths are `size_t`; the model
  uses unbounded naturals, which agrees with the source for all lengths below
  `2^31`.
* The model assumes that `dest`, `text` and `key` do not overlap, and it
  admits a `stream` array of length zero (as GCC and Clang do).
-/

namespace Arcfour

/-- Undefined behaviour that the model tracks. -/
inductive Fault where
  | modByZero
  | readOutOfBounds
  | writeOutOfBounds
  deriving DecidableEq, Repr

deriving instance DecidableEq for Except

/-- Read `a[i]`; a read outside the buffer is a fault. -/
def load (a : List Nat) (i : Nat) : Except Fault Nat :=
  match a[i]? with
  | some v => Except.ok v
  | none => Except.error Fault.readOutOfBounds

/-- Write `a[i] = v` into an `unsigned char` buffer: the value is reduced
modulo 256; a write outside the buffer is a fault. -/
def store (a : List Nat) (i v : Nat) : Except Fault (List Nat) :=
  if i < a.length then Except.ok (a.set i (v % 256))
  else Except.error Fault.writeOutOfBounds

/-- The C library `strlen`: index of the first zero byte of the buffer.
Running off the end of the buffer without meeting a zero byte is a fault. -/
def strlen : List Nat → Except Fault Nat
  | [] => Except.error Fault.readOutOfBounds
  | b :: bs => if b = 0 then Except.ok 0 else (strlen bs).map (· + 1)

/-- Indeterminate initial contents of a local array of `n` bytes, read off
the function `junk`. -/
def uninit (junk : Nat → Nat) (n : Nat) : List Nat :=
  (List.range n).map (fun k => junk k % 256)

/-- First loop of `ksa_sbox` (main.c lines 23-25): `s[i] = i`. -/
def ksa_sbox_loop1 : Nat → Nat → List Nat → Except Fault (List Nat)
  | 0, _, s => Except.ok s
  | n + 1, i, s => do
      let s ← store s i i
      ksa_sbox_loop1 n (i + 1) s

/-- Second loop of `ksa_sbox` (main.c lines 27-32):
`j = (j + s[i] + key[i % len]) % 256; t = s[i]; s[j] = s[j]; s[j] = t;`. -/
def ksa_sbox_loop2 (key : List Nat) (len : Nat) :
    Nat → Nat → Nat → List Nat → Except Fault (List Nat)
  | 0, _, _, s => Except.ok s
  | n + 1, i, j, s => do
      if len = 0 then Except.error Fault.modByZero
      let si ← load s i
      let k ← load key (i % len)
      let j := (j + si + k) % 256
      let t ← load s i
      let sj ← load s j
      let s ← store s j sj
      let s ← store s j t
      ksa_sbox_loop2 key len n (i + 1) j s

/-- The function `ksa_sbox(s, key, len)` of main.c (lines 19-33); the result
is the buffer `s` as the function leaves it. -/
def ksa_sbox (s key : List Nat) (len : Nat) : Except Fault (List Nat) := do
  let s ← ksa_sbox_loop1 256 0 s
  ksa_sbox_loop2 key len 256 0 0 s

/-- The loop of `prga` (main.c lines 46-53), `x` being the loop counter:
`i = (i + 1) % 256; j = (j + s[i]) % 256; t = s[i]; s[j] = s[i]; s[j] = t;
dest[x] = s[(s[i] + s[j]) % 256];`. -/
def prga_loop : Nat → Nat → Nat → Nat → List Nat → List Nat →
    Except Fault (List Nat × List Nat)
  | 0, _, _, _, dest, s => Except.ok (dest, s)
  | n + 1, x, i, j, dest, s => do
      let i := (i + 1) % 256
      let si ← load s i
      let j := (j + si) % 256
      let t ← load s i
      let si2 ← load s i
      let s ← store s j si2
      let s ← store s j (t % 256)
      let a ← load s i
      let b ← load s j
      let v ← load s ((a + b) % 256)
      let dest ← store dest x v
      prga_loop n (x + 1) i j dest s

/-- The function `prga(dest, s, len)` of main.c (lines 42-54); the result is
the pair of the buffers `dest` and `s` as the function leaves them. -/
def prga (dest s : List Nat) (len : Nat) : Except Fault (List Nat × List Nat) :=
  prga_loop len 0 0 0 dest s

/-- The loop of `crypt` (main.c lines 79-82): `dest[i] = text[i] ^ stream[i]`. -/
def crypt_loop (text stream : List Nat) : Nat → Nat → List Nat → Except Fault (List Nat)
  | 0, _, dest => Except.ok dest
  | n + 1, i, dest => do
      let a ← load text i
      let b ← load stream i
      let dest ← store dest i (a ^^^ b)
      crypt_loop text stream n (i + 1) dest

/-- The function `crypt(dest, text, key)` of main.c (lines 62-83); the result
is the buffer `dest` as the function leaves it.  `sboxInit` and `streamInit`
give the indeterminate initial contents of the locals `sbox[256]` and
`stream[strlen(sbox)]`. -/
def crypt (sboxInit streamInit : Nat → Nat) (dest text key : List Nat) :
    Except Fault (List Nat) := do
  let keylen ← strlen key
  let sbox ← ksa_sbox (uninit sboxInit 256) key keylen
  let size ← strlen sbox
  let len ← strlen sbox
  let r ← prga (uninit streamInit size) sbox len
  let textlen ← strlen text
  crypt_loop text r.1 textlen 0 dest

/-! ### Test vectors -/

/-- Test vector: the key `"Key"` as a NUL-terminated string. -/
def key_Key : List Nat := [0x4B, 0x65, 0x79, 0]

/-- Test vector: the text `"Plaintext"` as a NUL-terminated string. -/
def text_Plaintext : List Nat := [0x50, 0x6C, 0x61, 0x69, 0x6E, 0x74, 0x65, 0x78, 0x74, 0]

/-- Test vector: the key `"gap"` as a NUL-terminated string. -/
def key_gap : List Nat := [0x67, 0x61, 0x70, 0]

/-- Test vector: the text `"text"` as a NUL-terminated string. -/
def text_text : List Nat := [0x74, 0x65, 0x78, 0x74, 0]

/-- Test vector: the text `"abc"` as a NUL-terminated string. -/
def text_abc : List Nat := [0x61, 0x62, 0x63, 0]

/-- Prior contents of a local array that are all zero. -/
def zeroInit : Nat → Nat := fun _ => 0

/-- Test vector: the table `ksa_sbox` leaves for the key `"Key"`. -/
def table_Key : List Nat :=
  [0, 51, 132, 157, 192, 200, 29, 168, 74, 9, 131, 228, 18, 112, 130, 15, 91, 17, 18, 34, 41,
   185, 22, 23, 24, 216, 186, 27, 110, 29, 7, 31, 32, 27, 103, 137, 36, 37, 59, 105, 33, 247,
   42, 43, 138, 26, 46, 55, 48, 84, 50, 78, 135, 53, 255, 55, 56, 89, 187, 59, 60, 25, 60, 65,
   36, 65, 152, 67, 68, 7, 70, 31, 202, 162, 74, 0, 76, 29, 78, 79, 106, 39, 0, 0, 84, 229,
   102, 118, 88, 89, 90, 91, 214, 93, 6, 95, 96, 245, 134, 60, 225, 101, 102, 103, 86, 101,
   106, 107, 70, 109, 117, 146, 47, 195, 42, 128, 67, 253, 118, 209, 25, 41, 114, 219, 124,
   125, 110, 114, 128, 235, 130, 131, 153, 37, 134, 38, 136, 180, 179, 139, 203, 141, 96, 24,
   15, 145, 146, 27, 210, 149, 173, 109, 152, 153, 196, 79, 242, 157, 119, 7, 141, 161, 162,
   181, 164, 101, 63, 80, 168, 169, 170, 226, 47, 150, 207, 34, 80, 1, 6, 179, 180, 181, 36,
   59, 184, 185, 186, 212, 25, 150, 86, 24, 192, 69, 60, 195, 57, 141, 59, 57, 200, 201, 202,
   203, 25, 33, 148, 207, 26, 209, 210, 117, 212, 27, 214, 33, 216, 132, 218, 219, 184, 221,
   34, 38, 56, 225, 226, 140, 228, 229, 51, 79, 1, 101, 125, 235, 254, 140, 250, 41, 25, 84,
   242, 166, 166, 245, 33, 247, 138, 24, 250, 63, 34, 253, 254, 255]

/-- Test vector: the table `ksa_sbox` leaves for the key `"gap"`. -/
def table_gap : List Nat :=
  [1, 192, 12, 0, 94, 5, 198, 7, 18, 9, 4, 11, 14, 171, 175, 205, 191, 128, 237, 19, 20, 21,
   22, 23, 24, 107, 73, 27, 11, 29, 30, 31, 32, 5, 132, 193, 111, 146, 61, 39, 40, 180, 124,
   202, 44, 45, 46, 57, 155, 157, 3, 156, 39, 125, 34, 131, 245, 147, 58, 139, 167, 149, 78,
   181, 226, 66, 80, 90, 89, 11, 11, 22, 72, 73, 118, 168, 76, 24, 110, 176, 80, 122, 82, 83,
   20, 194, 80, 101, 88, 89, 90, 91, 18, 93, 94, 53, 96, 238, 16, 99, 88, 182, 203, 0, 48, 105,
   106, 107, 34, 109, 110, 111, 248, 240, 91, 117, 116, 117, 118, 58, 120, 121, 122, 234, 215,
   125, 137, 195, 128, 140, 32, 183, 132, 56, 228, 135, 56, 137, 18, 62, 40, 141, 4, 64, 73,
   145, 146, 126, 222, 246, 79, 48, 145, 68, 154, 155, 184, 157, 158, 159, 147, 4, 34, 174,
   196, 21, 146, 167, 168, 53, 170, 190, 172, 4, 174, 75, 134, 11, 73, 175, 180, 181, 182, 183,
   184, 88, 170, 216, 188, 40, 135, 191, 192, 193, 194, 195, 196, 197, 198, 235, 145, 1, 202,
   203, 210, 205, 122, 207, 21, 224, 210, 58, 62, 101, 125, 215, 216, 197, 191, 30, 57, 176,
   222, 140, 224, 197, 226, 49, 228, 67, 78, 64, 78, 124, 234, 235, 135, 237, 238, 73, 240, 32,
   32, 79, 58, 245, 246, 18, 248, 122, 49, 170, 75, 170, 134, 91]

/-- Test vector: the key `"a"` as a NUL-terminated string. -/
def key_a : List Nat := [0x61, 0]

/-- Test vector: the table `ksa_sbox` leaves for the key `"a"`. -/
def table_a : List Nat :=
  [170, 17, 79, 3, 225, 5, 57, 113, 223, 54, 127, 248, 27, 13, 12, 15, 35, 17, 18, 43, 20, 25,
   229, 52, 77, 90, 26, 72, 212, 29, 30, 31, 142, 88, 34, 55, 7, 37, 93, 69, 40, 41, 126, 43,
   23, 45, 106, 207, 48, 8, 50, 86, 52, 240, 101, 65, 76, 92, 215, 22, 60, 103, 62, 63, 63, 65,
   66, 67, 54, 23, 66, 226, 178, 73, 46, 125, 133, 77, 74, 79, 80, 181, 213, 83, 185, 5, 86,
   87, 88, 194, 30, 49, 162, 230, 89, 109, 208, 221, 10, 67, 100, 101, 26, 103, 182, 28, 118,
   156, 73, 5, 149, 186, 62, 113, 7, 216, 116, 102, 118, 167, 154, 121, 122, 113, 16, 153, 126,
   50, 191, 131, 51, 152, 132, 133, 30, 148, 15, 28, 151, 227, 34, 8, 142, 106, 26, 211, 49, 3,
   148, 253, 150, 151, 102, 153, 154, 242, 156, 51, 15, 159, 95, 58, 162, 11, 88, 148, 166,
   167, 46, 74, 177, 49, 148, 19, 101, 175, 102, 95, 115, 210, 22, 181, 182, 88, 184, 185, 186,
   1, 6, 178, 95, 146, 62, 101, 89, 1, 166, 73, 198, 20, 6, 76, 66, 30, 218, 3, 11, 207, 228,
   191, 210, 211, 212, 213, 79, 215, 216, 217, 218, 66, 55, 221, 47, 223, 89, 225, 226, 227, 4,
   229, 230, 211, 218, 146, 67, 106, 237, 237, 50, 243, 240, 178, 242, 243, 83, 74, 47, 115,
   248, 16, 92, 19, 41, 253, 65, 11]

/-! ### Evaluation device

The four definitions below are not part of the embedding.  They pack a table
of bytes into one natural number (base 256, entry 0 lowest), so that the key
schedule can be evaluated on a test vector with a few hundred arithmetic
operations; `ksa_table_of_enc` proves that the packed run computes the table
of `ksa_sbox_loop2`. -/

/-- Entry `i` of a packed table. -/
def getN (t i : Nat) : Nat := t / 256 ^ i % 256

/-- A packed table with entry `i` replaced by `v`. -/
def setN (t i v : Nat) : Nat := t - getN t i * 256 ^ i + v * 256 ^ i

/-- A table of bytes packed into a natural number. -/
def enc : List Nat → Nat
  | [] => 0
  | b :: bs => b + 256 * enc bs

/-- The second loop of `ksa_sbox` on a packed table, for runs that stay inside
their buffers. -/
def ksa_sbox_loop2N (key : List Nat) (len : Nat) : Nat → Nat → Nat → Nat → Nat
  | 0, _, _, t => t
  | n + 1, i, j, t =>
      ksa_sbox_loop2N key len n (i + 1) ((j + getN t i + key.getD (i % len) 0) % 256)
        (setN t ((j + getN t i + key.getD (i % len) 0) % 256) (getN t i % 256))

/-! ### Reference procedures

The definitions below are not translated from main.c.  They follow the words
of the specification (sections 4.1 and 4.2), the classical RC4 key schedule and
keystream generator, and serve only to be compared with `ksa_sbox` and
`prga`. -/

/-- Reference, after the specification: "swap S[i] and S[j]", a true exchange
of both entries. -/
def spec_swap (S : List Nat) (i j : Nat) : List Nat :=
  (S.set i (S.getD j 0)).set j (S.getD i 0)

/-- Reference, after the specification (4.1): "for i from 0 to 255 (in order):
set j = (j + S[i] + key[i mod L]) mod 256; swap S[i] and S[j]". -/
def spec_schedule_loop (key : List Nat) (L : Nat) : Nat → Nat → Nat → List Nat → List Nat
  | 0, _, _, S => S
  | n + 1, i, j, S =>
      spec_schedule_loop key L n (i + 1) ((j + S.getD i 0 + key.getD (i % L) 0) % 256)
        (spec_swap S i ((j + S.getD i 0 + key.getD (i % L) 0) % 256))

/-- Reference, after the specification (4.1): "initialize S-box so that
S[i] = i for i in 0..255; maintain a running index j, initialized to 0", then
the loop. -/
def spec_schedule (key : List Nat) (L : Nat) : List Nat :=
  spec_schedule_loop key L 256 0 0 (List.range 256)

/-- Reference, after the specification (4.2): "for each of the N output
positions: i = (i+1) mod 256; j = (j + S[i]) mod 256; swap S[i] and S[j]; emit
S[(S[i] + S[j]) mod 256]".  The result is the pair of the emitted bytes and the
final S-box. -/
def spec_generate_loop : Nat → Nat → Nat → List Nat → List Nat × List Nat
  | 0, _, _, S => ([], S)
  | n + 1, i, j, S =>
      let i2 := (i + 1) % 256
      let j2 := (j + S.getD i2 0) % 256
      let S2 := spec_swap S i2 j2
      let r := spec_generate_loop n i2 j2 S2
      (S2.getD ((S2.getD i2 0 + S2.getD j2 0) % 256) 0 :: r.1, r.2)

/-- Reference, after the specification (4.2): "maintain indices i, j both
initialized to 0", then the loop for `N` output positions. -/
def spec_generate (S : List Nat) (N : Nat) : List Nat × List Nat :=
  spec_generate_loop N 0 0 S

/-! ## Basic facts about the memory primitives -/

/-- Sequencing after a computation that returned. -/
theorem bind_ok {α β : Type} (a : α) (f : α → Except Fault β) :
    (Except.ok a >>= f) = f a :=
  Eq.trans rfl rfl

/-- Sequencing after a computation that faulted. -/
theorem bind_error {α β : Type} (e : Fault) (f : α → Except Fault β) :
    ((Except.error e : Except Fault α) >>= f) = Except.error e :=
  Eq.trans rfl rfl

/-- A read inside the buffer returns the byte stored there. -/
theorem load_ok {a : List Nat} {i : Nat} (h : i < a.length) :
    load a i = Except.ok (a.getD i 0) := by
  simp [load, List.getD, List.getElem?_eq_getElem h]

/-- A read at or past the end of the buffer faults. -/
theorem load_oob {a : List Nat} {i : Nat} (h : a.length ≤ i) :
    load a i = Except.error Fault.readOutOfBounds := by
  simp [load, List.getElem?_eq_none h]

/-- A write inside the buffer stores the value modulo 256. -/
theorem store_ok {a : List Nat} {i : Nat} (v : Nat) (h : i < a.length) :
    store a i v = Except.ok (a.set i (v % 256)) := by
  simp [store, h]

/-- Inside the buffer, reading with a default is reading. -/
theorem getElem?_getD {a : List Nat} {i : Nat} (h : i < a.length) :
    a[i]? = some (a.getD i 0) := by
  simp [List.getD, List.getElem?_eq_getElem h]

/-- A local array of `n` bytes has `n` bytes. -/
theorem uninit_length (junk : Nat → Nat) (n : Nat) : (uninit junk n).length = n := by
  simp [uninit]

/-- The first loop of the key schedule writes `k` at every index `k` of the
range it runs over and leaves the rest of the buffer alone. -/
theorem ksa_sbox_loop1_spec (n : Nat) : ∀ (i : Nat) (s : List Nat),
    i + n ≤ 256 → i + n ≤ s.length →
    ∃ r, ksa_sbox_loop1 n i s = Except.ok r ∧ r.length = s.length ∧
      ∀ k, r[k]? = if i ≤ k ∧ k < i + n then some k else s[k]? := by
  induction n with
  | zero =>
    intro i s _ _
    refine ⟨s, rfl, rfl, fun k => ?_⟩
    have : ¬ (i ≤ k ∧ k < i + 0) := by omega
    rw [if_neg this]
  | succ n ih =>
    intro i s h1 h2
    have hi : i < s.length := by omega
    obtain ⟨r, hr, hlen, hget⟩ := ih (i + 1) (s.set i (i % 256)) (by omega) (by simp; omega)
    refine ⟨r, ?_, by simpa using hlen, fun k => ?_⟩
    · simp [ksa_sbox_loop1, store_ok i hi, hr, bind_ok]
    · rw [hget k, List.getElem?_set]
      have him : i % 256 = i := Nat.mod_eq_of_lt (by omega)
      by_cases hk : i = k
      · subst hk
        simp [hi, him]
      · by_cases hk2 : i + 1 ≤ k ∧ k < i + 1 + n
        · have : i ≤ k ∧ k < i + (n + 1) := by omega
          simp [hk2, this]
        · have : ¬ (i ≤ k ∧ k < i + (n + 1)) := by omega
          simp [hk2, this, hk]

/-- On a buffer of exactly 256 bytes the first loop leaves the identity table
`0, 1, ..., 255`, whatever the buffer held before. -/
theorem ksa_sbox_loop1_fresh (s : List Nat) (h : s.length = 256) :
    ksa_sbox_loop1 256 0 s = Except.ok (List.range 256) := by
  obtain ⟨r, hr, hlen, hget⟩ := ksa_sbox_loop1_spec 256 0 s (by omega) (by omega)
  rw [hr]
  congr 1
  apply List.ext_getElem?
  intro k
  rw [hget k]
  by_cases hk : k < 256
  · simp [hk, List.getElem?_range hk]
  · have h1 : ¬ (0 ≤ k ∧ k < 0 + 256) := by omega
    rw [if_neg h1, List.getElem?_eq_none (by omega), List.getElem?_eq_none (by simp; omega)]


/-- One iteration of the second loop of the key schedule, when no access
leaves its buffer: the new `j` is computed and `s[j]` receives `s[i]`. -/
theorem ksa_sbox_loop2_step (key : List Nat) (len n i j : Nat) (s : List Nat)
    (hlen : 0 < len) (hkey : i % len < key.length) (hi : i < s.length)
    (hs : 256 ≤ s.length) :
    ksa_sbox_loop2 key len (n + 1) i j s =
      ksa_sbox_loop2 key len n (i + 1) ((j + s.getD i 0 + key.getD (i % len) 0) % 256)
        (s.set ((j + s.getD i 0 + key.getD (i % len) 0) % 256) (s.getD i 0 % 256)) := by
  have hj : (j + s.getD i 0 + key.getD (i % len) 0) % 256 < s.length :=
    Nat.lt_of_lt_of_le (Nat.mod_lt _ (by omega)) hs
  have hne : len ≠ 0 := by omega
  have hj2 : (j + s.getD i 0 + key.getD (i % len) 0) % 256 <
      (s.set ((j + s.getD i 0 + key.getD (i % len) 0) % 256)
        (s.getD ((j + s.getD i 0 + key.getD (i % len) 0) % 256) 0 % 256)).length := by
    rw [List.length_set]; exact hj
  rw [ksa_sbox_loop2]
  simp only [hne, if_false, load_ok hi, load_ok hkey, load_ok hj, store_ok _ hj, store_ok _ hj2,
    bind_ok, List.set_set, pure_bind]

/-- With a key length that is not zero the key schedule runs to its end and
keeps the length of the table. -/
theorem ksa_sbox_loop2_total (key : List Nat) (len : Nat) (hlen : 0 < len)
    (hkey : len ≤ key.length) (n : Nat) : ∀ (i j : Nat) (s : List Nat),
    i + n ≤ 256 → 256 ≤ s.length →
    ∃ r, ksa_sbox_loop2 key len n i j s = Except.ok r ∧ r.length = s.length := by
  induction n with
  | zero => intro i j s _ _; exact ⟨s, rfl, rfl⟩
  | succ n ih =>
    intro i j s h1 h2
    have hk : i % len < key.length := Nat.lt_of_lt_of_le (Nat.mod_lt _ hlen) hkey
    rw [ksa_sbox_loop2_step key len n i j s hlen hk (by omega) h2]
    obtain ⟨r, hr, hl⟩ := ih (i + 1) ((j + s.getD i 0 + key.getD (i % len) 0) % 256)
      (s.set ((j + s.getD i 0 + key.getD (i % len) 0) % 256) (s.getD i 0 % 256))
      (by omega) (by simpa using h2)
    exact ⟨r, hr, by simpa using hl⟩

/-- The second loop reads the key only at the positions `i % len`. -/
theorem ksa_sbox_loop2_congr (k1 k2 : List Nat) (l1 l2 : Nat) (h1 : 0 < l1) (h2 : 0 < l2)
    (hk1 : l1 ≤ k1.length) (hk2 : l2 ≤ k2.length)
    (hsame : ∀ i, i < 256 → k1.getD (i % l1) 0 = k2.getD (i % l2) 0) (n : Nat) :
    ∀ (i j : Nat) (s : List Nat), i + n ≤ 256 → 256 ≤ s.length →
    ksa_sbox_loop2 k1 l1 n i j s = ksa_sbox_loop2 k2 l2 n i j s := by
  induction n with
  | zero => intro i j s _ _; rfl
  | succ n ih =>
    intro i j s hn hs
    have ha : i % l1 < k1.length := Nat.lt_of_lt_of_le (Nat.mod_lt _ h1) hk1
    have hb : i % l2 < k2.length := Nat.lt_of_lt_of_le (Nat.mod_lt _ h2) hk2
    rw [ksa_sbox_loop2_step k1 l1 n i j s h1 ha (by omega) hs,
      ksa_sbox_loop2_step k2 l2 n i j s h2 hb (by omega) hs, hsame i (by omega)]
    exact ih _ _ _ (by omega) (by simpa using hs)

/-- The key schedule on a buffer of at least 256 bytes: the first loop runs
to its end. -/
theorem ksa_sbox_loop1_total (s : List Nat) (hs : 256 ≤ s.length) :
    ∃ r, ksa_sbox_loop1 256 0 s = Except.ok r ∧ r.length = s.length := by
  obtain ⟨r, hr, hl, _⟩ := ksa_sbox_loop1_spec 256 0 s (by omega) (by omega)
  exact ⟨r, hr, hl⟩

/-- The key schedule with a zero length faults with a modulo by zero. -/
theorem ksa_sbox_loop2_zero (key : List Nat) (n i j : Nat) (s : List Nat) :
    ksa_sbox_loop2 key 0 (n + 1) i j s = Except.error Fault.modByZero := by
  rw [ksa_sbox_loop2]
  simp [bind_error]


/-- One iteration of the loop of `prga`, when the table has 256 entries: the
indices, the table and the emitted byte after the iteration do not depend on
`dest`. -/
theorem prga_loop_step (i j : Nat) (s : List Nat) (hs : 256 ≤ s.length) :
    ∃ (i2 j2 v : Nat) (s2 : List Nat), v < 256 ∧ s2.length = s.length ∧
      ∀ (n x : Nat) (dest : List Nat), x < dest.length →
        prga_loop (n + 1) x i j dest s = prga_loop n (x + 1) i2 j2 (dest.set x v) s2 := by
  have hi : (i + 1) % 256 < s.length := Nat.lt_of_lt_of_le (Nat.mod_lt _ (by omega)) hs
  have hj : (j + s.getD ((i + 1) % 256) 0) % 256 < s.length :=
    Nat.lt_of_lt_of_le (Nat.mod_lt _ (by omega)) hs
  have hlen : ∀ (a b : Nat), (s.set a b).length = s.length := fun a b => List.length_set s a b
  have hi2 : ∀ (a b : Nat), (i + 1) % 256 < (s.set a b).length := fun a b => by
    rw [hlen]; exact hi
  have hj2 : ∀ (a b : Nat), (j + s.getD ((i + 1) % 256) 0) % 256 < (s.set a b).length :=
    fun a b => by rw [hlen]; exact hj
  have hv : ∀ (a b c : Nat), c % 256 < (s.set a b).length := fun a b c => by
    rw [hlen]; exact Nat.lt_of_lt_of_le (Nat.mod_lt _ (by omega)) hs
  refine ⟨(i + 1) % 256, (j + s.getD ((i + 1) % 256) 0) % 256,
    ((s.set ((j + s.getD ((i + 1) % 256) 0) % 256) (s.getD ((i + 1) % 256) 0 % 256)).getD
      (((s.set ((j + s.getD ((i + 1) % 256) 0) % 256) (s.getD ((i + 1) % 256) 0 % 256)).getD ((i + 1) % 256) 0 +
        (s.set ((j + s.getD ((i + 1) % 256) 0) % 256) (s.getD ((i + 1) % 256) 0 % 256)).getD
          ((j + s.getD ((i + 1) % 256) 0) % 256) 0) % 256) 0) % 256,
    (s.set ((j + s.getD ((i + 1) % 256) 0) % 256) (s.getD ((i + 1) % 256) 0 % 256)),
    Nat.mod_lt _ (by omega), hlen _ _, fun n x dest hx => ?_⟩
  rw [prga_loop]
  simp only [load_ok hi, load_ok hj, store_ok _ hj, store_ok _ (hj2 _ _), bind_ok,
    List.set_set, load_ok (hi2 _ _), load_ok (hj2 _ _), load_ok (hv _ _ _), store_ok _ hx,
    Nat.mod_mod]

/-- The loop of `prga` runs to its end when the table has 256 entries and
`dest` has room; the bytes it emits and the table it leaves do not depend on
`dest`, which changes at the written positions only. -/
theorem prga_loop_spec (n : Nat) : ∀ (i j : Nat) (s : List Nat), 256 ≤ s.length →
    ∃ (out s2 : List Nat), out.length = n ∧ s2.length = s.length ∧ (∀ v ∈ out, v < 256) ∧
      ∀ (x : Nat) (dest : List Nat), x + n ≤ dest.length →
        ∃ d, prga_loop n x i j dest s = Except.ok (d, s2) ∧ d.length = dest.length ∧
          ∀ k, d[k]? = if x ≤ k ∧ k < x + n then out[k - x]? else dest[k]? := by
  induction n with
  | zero =>
    intro i j s _
    refine ⟨[], s, rfl, rfl, by simp, fun x dest _ => ⟨dest, rfl, rfl, fun k => ?_⟩⟩
    have : ¬ (x ≤ k ∧ k < x + 0) := by omega
    rw [if_neg this]
  | succ n ih =>
    intro i j s hs
    obtain ⟨i2, j2, v, t, hv, ht, hstep⟩ := prga_loop_step i j s hs
    obtain ⟨out, s2, ho, hl, hb, hspec⟩ := ih i2 j2 t (by omega)
    refine ⟨v :: out, s2, by simp [ho], by omega, ?_, fun x dest hx => ?_⟩
    · intro w hw
      rcases List.mem_cons.1 hw with h | h
      · rw [h]; exact hv
      · exact hb w h
    · rw [hstep n x dest (by omega)]
      obtain ⟨d, hd, hdl, hget⟩ := hspec (x + 1) (dest.set x v) (by simp; omega)
      refine ⟨d, hd, by simpa using hdl, fun k => ?_⟩
      rw [hget k, List.getElem?_set]
      by_cases hk : x = k
      · subst hk
        have h1 : ¬ (x + 1 ≤ x ∧ x < x + 1 + n) := by omega
        have h2 : x ≤ x ∧ x < x + (n + 1) := by omega
        have h3 : x < dest.length := by omega
        simp [h1, h2, h3]
      · by_cases hr : x + 1 ≤ k ∧ k < x + 1 + n
        · have h2 : x ≤ k ∧ k < x + (n + 1) := by omega
          have h3 : k - x = (k - (x + 1)) + 1 := by omega
          rw [if_pos hr, if_pos h2, h3, List.getElem?_cons_succ]
        · have h2 : ¬ (x ≤ k ∧ k < x + (n + 1)) := by omega
          rw [if_neg hr, if_neg h2, if_neg hk]

/-- The keystream `prga` leaves in a buffer of exactly `len` bytes does not
depend on what the buffer held before. -/
theorem prga_fresh (s : List Nat) (len : Nat) (hs : 256 ≤ s.length) :
    ∃ (out s2 : List Nat), out.length = len ∧ (∀ v ∈ out, v < 256) ∧
      ∀ dest : List Nat, dest.length = len → prga dest s len = Except.ok (out, s2) := by
  obtain ⟨out, s2, ho, _, hb, hspec⟩ := prga_loop_spec len 0 0 s hs
  refine ⟨out, s2, ho, hb, fun dest hd => ?_⟩
  obtain ⟨d, hd1, hdl, hget⟩ := hspec 0 dest (by omega)
  have : d = out := by
    apply List.ext_getElem?
    intro k
    rw [hget k]
    by_cases hk : k < len
    · have : 0 ≤ k ∧ k < 0 + len := by omega
      rw [if_pos this, Nat.sub_zero]
    · have : ¬ (0 ≤ k ∧ k < 0 + len) := by omega
      rw [if_neg this, List.getElem?_eq_none (by omega), List.getElem?_eq_none (by omega)]
  rw [prga, hd1, this]


/-- A string length that `strlen` returns lies inside the buffer. -/
theorem strlen_lt : ∀ (a : List Nat) (n : Nat), strlen a = Except.ok n → n < a.length
  | [], n, h => by simp [strlen] at h
  | b :: bs, n, h => by
    by_cases hb : b = 0
    · simp [strlen, hb] at h
      subst h
      simp
    · simp only [strlen, hb, if_false] at h
      cases hr : strlen bs with
      | error e => rw [hr] at h; simp [Except.map] at h
      | ok m =>
        rw [hr] at h
        simp [Except.map] at h
        subst h
        have := strlen_lt bs m hr
        simpa using this

/-- The loop of `crypt` runs to its end when `text`, `stream` and `dest` all
reach up to the last index it visits; it stores `text[k] ^ stream[k]` at every
index `k` it visits and leaves the rest of `dest` alone. -/
theorem crypt_loop_spec (text stream : List Nat) (n : Nat) : ∀ (i : Nat) (dest : List Nat),
    i + n ≤ text.length → i + n ≤ stream.length → i + n ≤ dest.length →
    ∃ d, crypt_loop text stream n i dest = Except.ok d ∧ d.length = dest.length ∧
      ∀ k, d[k]? = if i ≤ k ∧ k < i + n
        then some ((text.getD k 0 ^^^ stream.getD k 0) % 256) else dest[k]? := by
  induction n with
  | zero =>
    intro i dest _ _ _
    refine ⟨dest, rfl, rfl, fun k => ?_⟩
    have : ¬ (i ≤ k ∧ k < i + 0) := by omega
    rw [if_neg this]
  | succ n ih =>
    intro i dest h1 h2 h3
    have ha : i < text.length := by omega
    have hb : i < stream.length := by omega
    have hc : i < dest.length := by omega
    obtain ⟨d, hd, hdl, hget⟩ := ih (i + 1)
      (dest.set i ((text.getD i 0 ^^^ stream.getD i 0) % 256))
      (by omega) (by omega) (by simp; omega)
    refine ⟨d, ?_, by simpa using hdl, fun k => ?_⟩
    · rw [crypt_loop]
      simp only [load_ok ha, load_ok hb, store_ok _ hc, bind_ok]
      exact hd
    · rw [hget k, List.getElem?_set]
      by_cases hk : i = k
      · subst hk
        have h4 : ¬ (i + 1 ≤ i ∧ i < i + 1 + n) := by omega
        have h5 : i ≤ i ∧ i < i + (n + 1) := by omega
        simp [h4, h5, hc]
      · by_cases hr : i + 1 ≤ k ∧ k < i + 1 + n
        · have h5 : i ≤ k ∧ k < i + (n + 1) := by omega
          rw [if_pos hr, if_pos h5]
        · have h5 : ¬ (i ≤ k ∧ k < i + (n + 1)) := by omega
          rw [if_neg hr, if_neg h5, if_neg hk]

/-- With an empty keystream the loop of `crypt` faults at its first
iteration: `stream[i]` lies outside the array. -/
theorem crypt_loop_no_stream (text : List Nat) (n i : Nat) (dest : List Nat) :
    crypt_loop text [] (n + 1) i dest = Except.error Fault.readOutOfBounds := by
  rw [crypt_loop]
  have hs : load [] i = Except.error Fault.readOutOfBounds := load_oob (by simp)
  cases ht : load text i with
  | error e =>
    have : e = Fault.readOutOfBounds := by
      unfold load at ht
      split at ht
      · cases ht
      · cases ht; rfl
    rw [this]; rfl
  | ok a => simp only [hs, bind_ok, bind_error]

/-- In `crypt` the key schedule starts from the identity table whatever the
local array `sbox` held before. -/
theorem ksa_sbox_fresh (junk : Nat → Nat) (key : List Nat) (len : Nat) :
    ksa_sbox (uninit junk 256) key len =
      ksa_sbox_loop2 key len 256 0 0 (List.range 256) := by
  rw [ksa_sbox, ksa_sbox_loop1_fresh _ (uninit_length junk 256)]
  rfl

/-- A key schedule that returns was given a key length that is not zero. -/
theorem ksa_sbox_loop2_len_pos (key : List Nat) (len n i j : Nat) (s r : List Nat)
    (h : ksa_sbox_loop2 key len (n + 1) i j s = Except.ok r) : 0 < len := by
  rcases Nat.eq_zero_or_pos len with h0 | h0
  · subst h0
    rw [ksa_sbox_loop2_zero] at h
    cases h
  · exact h0

/-- A scheduled table whose `strlen` is known: the table exists and has the
length of the buffer the second loop started from. -/
theorem ksa_table_of_strlen (key : List Nat) (L m : Nat) (hkey : strlen key = Except.ok L)
    (hm : (ksa_sbox_loop2 key L 256 0 0 (List.range 256) >>= strlen) = Except.ok m) :
    ∃ s, ksa_sbox_loop2 key L 256 0 0 (List.range 256) = Except.ok s ∧
      strlen s = Except.ok m ∧ s.length = 256 := by
  cases hs : ksa_sbox_loop2 key L 256 0 0 (List.range 256) with
  | error e => rw [hs] at hm; cases hm
  | ok s =>
    rw [hs] at hm
    have hL : 0 < L := ksa_sbox_loop2_len_pos key L 255 0 0 _ s hs
    obtain ⟨r, hr, hl⟩ := ksa_sbox_loop2_total key L hL (Nat.le_of_lt (strlen_lt key L hkey))
      256 0 0 (List.range 256) (by omega) (by simp)
    rw [hs] at hr
    cases hr
    exact ⟨s, rfl, hm, by simpa using hl⟩

/-- What `crypt` computes once the key schedule has produced a table whose
first zero byte is at index `m`: a keystream `out` of `m` bytes that depends on
the key alone, combined with the text by the last loop. -/
theorem crypt_unfold (key : List Nat) (L m : Nat) (hkey : strlen key = Except.ok L)
    (hm : (ksa_sbox_loop2 key L 256 0 0 (List.range 256) >>= strlen) = Except.ok m) :
    ∃ out : List Nat, out.length = m ∧ (∀ v ∈ out, v < 256) ∧
      ∀ (sboxInit streamInit : Nat → Nat) (dest text : List Nat),
        crypt sboxInit streamInit dest text key =
          (strlen text >>= fun n => crypt_loop text out n 0 dest) := by
  obtain ⟨s, hs, hsm, hsl⟩ := ksa_table_of_strlen key L m hkey hm
  obtain ⟨out, s2, ho, hb, hp⟩ := prga_fresh s m (by omega)
  refine ⟨out, ho, hb, fun sboxInit streamInit dest text => ?_⟩
  simp only [crypt, hkey, bind_ok, ksa_sbox_fresh, hs, hsm, hp _ (uninit_length streamInit m)]


/-- The bytes of a buffer read with a default are bytes when the buffer holds
bytes. -/
theorem getD_lt_of_forall (a : List Nat) (h : ∀ b ∈ a, b < 256) (k : Nat) : a.getD k 0 < 256 := by
  by_cases hk : k < a.length
  · have : a.getD k 0 = a[k] := by simp [List.getD, List.getElem?_eq_getElem hk]
    rw [this]
    exact h _ (List.getElem_mem hk)
  · have : a.getD k 0 = 0 := by simp [List.getD, List.getElem?_eq_none (Nat.le_of_not_lt hk)]
    omega

/-! ## The packed key schedule computes the same table -/

/-- Reading entry `i` of a packed table of bytes. -/
theorem getN_enc : ∀ (s : List Nat) (i : Nat), (∀ b ∈ s, b < 256) →
    getN (enc s) i = s.getD i 0
  | [], i, _ => by simp [getN, enc]
  | b :: bs, 0, h => by
    have hb : b < 256 := h b (List.mem_cons_self b bs)
    simp only [getN, enc, pow_zero, Nat.div_one, List.getD_cons_zero]
    omega
  | b :: bs, i + 1, h => by
    have hb : b < 256 := h b (List.mem_cons_self b bs)
    have ih := getN_enc bs i (fun x hx => h x (List.mem_cons_of_mem b hx))
    have hdiv : (b + 256 * enc bs) / 256 ^ (i + 1) = enc bs / 256 ^ i := by
      have h256 : (b + 256 * enc bs) / 256 = enc bs := by omega
      rw [Nat.pow_succ', ← Nat.div_div_eq_div_mul, h256]
    simp only [getN, enc, List.getD_cons_succ, hdiv]
    exact ih

/-- An entry of a packed table, at its place, is no more than the table. -/
theorem getN_mul_le (t i : Nat) : getN t i * 256 ^ i ≤ t :=
  Nat.le_trans (Nat.mul_le_mul_right _ (Nat.mod_le _ _)) (Nat.div_mul_le_self t (256 ^ i))

/-- Writing entry `i` of a packed table of bytes. -/
theorem enc_set : ∀ (s : List Nat) (i v : Nat), i < s.length → (∀ b ∈ s, b < 256) →
    enc (s.set i v) = setN (enc s) i v
  | [], i, v, hi, _ => by simp at hi
  | b :: bs, 0, v, _, h => by
    have hb : b < 256 := h b (List.mem_cons_self b bs)
    have hg : getN (b + 256 * enc bs) 0 = b := by
      simp only [getN, pow_zero, Nat.div_one]
      omega
    simp only [List.set_cons_zero, enc, setN, hg, pow_zero, Nat.mul_one]
    omega
  | b :: bs, i + 1, v, hi, h => by
    have hbs : ∀ x ∈ bs, x < 256 := fun x hx => h x (List.mem_cons_of_mem b hx)
    have ih := enc_set bs i v (by simpa using hi) hbs
    have hg : getN (b + 256 * enc bs) (i + 1) = getN (enc bs) i := by
      have h1 := getN_enc (b :: bs) (i + 1) h
      have h2 := getN_enc bs i hbs
      simp only [enc, List.getD_cons_succ] at h1
      rw [h1, h2]
    have hle := getN_mul_le (enc bs) i
    simp only [List.set_cons_succ, enc, ih]
    simp only [setN, hg, pow_succ]
    have e1 : getN (enc bs) i * (256 ^ i * 256) = 256 * (getN (enc bs) i * 256 ^ i) := by ring
    have e2 : v * (256 ^ i * 256) = 256 * (v * 256 ^ i) := by ring
    rw [e1, e2]
    omega

/-- Two tables of bytes of the same length with the same packing are equal. -/
theorem enc_inj (s t : List Nat) (hl : s.length = t.length) (hs : ∀ b ∈ s, b < 256)
    (ht : ∀ b ∈ t, b < 256) (h : enc s = enc t) : s = t := by
  apply List.ext_getElem?
  intro k
  by_cases hk : k < s.length
  · have h1 := getN_enc s k hs
    have h2 := getN_enc t k ht
    rw [h] at h1
    rw [getElem?_getD hk, getElem?_getD (by omega), ← h1, ← h2]
  · rw [List.getElem?_eq_none (by omega), List.getElem?_eq_none (by omega)]

/-- The second loop of `ksa_sbox` on a table of 256 bytes returns a table of
256 bytes whose packing is the result of the packed loop. -/
theorem ksa_sbox_loop2_enc (key : List Nat) (len : Nat) (hlen : 0 < len)
    (hkey : len ≤ key.length) (n : Nat) : ∀ (i j : Nat) (s : List Nat),
    i + n ≤ 256 → s.length = 256 → (∀ b ∈ s, b < 256) →
    ∃ r, ksa_sbox_loop2 key len n i j s = Except.ok r ∧ r.length = 256 ∧
      (∀ b ∈ r, b < 256) ∧ enc r = ksa_sbox_loop2N key len n i j (enc s) := by
  induction n with
  | zero => intro i j s _ hl hb; exact ⟨s, rfl, hl, hb, rfl⟩
  | succ n ih =>
    intro i j s hn hl hb
    have hk : i % len < key.length := Nat.lt_of_lt_of_le (Nat.mod_lt _ hlen) hkey
    have hj : (j + s.getD i 0 + key.getD (i % len) 0) % 256 < s.length := by
      rw [hl]; exact Nat.mod_lt _ (by omega)
    rw [ksa_sbox_loop2_step key len n i j s hlen hk (by omega) (by omega)]
    obtain ⟨r, hr, hrl, hrb, hre⟩ := ih (i + 1) ((j + s.getD i 0 + key.getD (i % len) 0) % 256)
      (s.set ((j + s.getD i 0 + key.getD (i % len) 0) % 256) (s.getD i 0 % 256))
      (by omega) (by simpa using hl)
      (fun b hbm => by
        rcases List.mem_or_eq_of_mem_set hbm with h | h
        · exact hb b h
        · rw [h]; exact Nat.mod_lt _ (by omega))
    refine ⟨r, hr, hrl, hrb, ?_⟩
    rw [hre, enc_set s _ _ hj hb, ksa_sbox_loop2N, getN_enc s i hb]

/-- A table of 256 bytes is the table the key schedule leaves as soon as its
packing is the result of the packed key schedule. -/
theorem ksa_table_of_enc (key : List Nat) (len : Nat) (table : List Nat) (hlen : 0 < len)
    (hkey : len ≤ key.length) (htl : table.length = 256) (htb : ∀ b ∈ table, b < 256)
    (h : ksa_sbox_loop2N key len 256 0 0 (enc (List.range 256)) = enc table) :
    ksa_sbox_loop2 key len 256 0 0 (List.range 256) = Except.ok table := by
  obtain ⟨r, hr, hrl, hrb, hre⟩ := ksa_sbox_loop2_enc key len hlen hkey 256 0 0 (List.range 256)
    (by omega) (by simp) (fun b hb => List.mem_range.1 hb)
  rw [hr, enc_inj r table (by omega) hrb htb (by rw [hre, h])]

/-! ## Evaluations on the test vectors -/

set_option maxRecDepth 100000 in
/-- The key schedule evaluated on the key `"Key"`. -/
theorem ksa_table_Key :
    ksa_sbox_loop2 key_Key 3 256 0 0 (List.range 256) = Except.ok table_Key :=
  ksa_table_of_enc key_Key 3 table_Key (by decide) (by decide) (by decide) (by decide)
    (by decide)

set_option maxRecDepth 100000 in
/-- The key schedule evaluated on the key `"gap"`. -/
theorem ksa_table_gap :
    ksa_sbox_loop2 key_gap 3 256 0 0 (List.range 256) = Except.ok table_gap :=
  ksa_table_of_enc key_gap 3 table_gap (by decide) (by decide) (by decide) (by decide)
    (by decide)

set_option maxRecDepth 100000 in
/-- The key schedule evaluated on the key `"a"`. -/
theorem ksa_table_a :
    ksa_sbox_loop2 key_a 1 256 0 0 (List.range 256) = Except.ok table_a :=
  ksa_table_of_enc key_a 1 table_a (by decide) (by decide) (by decide) (by decide)
    (by decide)

set_option maxRecDepth 100000 in
/-- The keystream `prga` derives from the table of the key `"gap"`. -/
theorem prga_stream_gap :
    (prga (List.replicate 3 0) table_gap 3).map Prod.fst = Except.ok [128, 24, 1] := by
  decide

/-- What `crypt` computes for a key whose table `s` and keystream `out` are
known: the last loop run on the text and `out`. -/
theorem crypt_of_table (key s out : List Nat) (L m : Nat)
    (hkey : strlen key = Except.ok L)
    (hs : ksa_sbox_loop2 key L 256 0 0 (List.range 256) = Except.ok s)
    (hsm : strlen s = Except.ok m)
    (hp : (prga (List.replicate m 0) s m).map Prod.fst = Except.ok out)
    (sboxInit streamInit : Nat → Nat) (dest text : List Nat) :
    crypt sboxInit streamInit dest text key =
      (strlen text >>= fun n => crypt_loop text out n 0 dest) := by
  have hm : (ksa_sbox_loop2 key L 256 0 0 (List.range 256) >>= strlen) = Except.ok m := by
    rw [hs]; exact hsm
  obtain ⟨s1, hs1, _, hsl⟩ := ksa_table_of_strlen key L m hkey hm
  rw [hs] at hs1
  cases hs1
  obtain ⟨out1, s2, _, _, hfresh⟩ := prga_fresh s m (by omega)
  rw [hfresh (List.replicate m 0) (by simp)] at hp
  cases hp
  simp only [crypt, hkey, bind_ok, ksa_sbox_fresh, hs, hsm, hfresh _ (uninit_length streamInit m)]

set_option maxRecDepth 100000 in
/-- Under the key `"Key"` the scheduled table starts with a zero byte, so the
keystream array is empty and `crypt` runs its last loop against it. -/
theorem crypt_key_Key (sboxInit streamInit : Nat → Nat) (dest text : List Nat) :
    crypt sboxInit streamInit dest text key_Key =
      (strlen text >>= fun n => crypt_loop text [] n 0 dest) :=
  crypt_of_table key_Key table_Key [] 3 0 (by decide) ksa_table_Key (by decide) (by decide)
    sboxInit streamInit dest text

set_option maxRecDepth 100000 in
/-- Under the key `"gap"` the keystream array holds three bytes. -/
theorem crypt_key_gap (sboxInit streamInit : Nat → Nat) (dest text : List Nat) :
    crypt sboxInit streamInit dest text key_gap =
      (strlen text >>= fun n => crypt_loop text [128, 24, 1] n 0 dest) :=
  crypt_of_table key_gap table_gap [128, 24, 1] 3 3 (by decide) ksa_table_gap
    (by decide) prga_stream_gap sboxInit streamInit dest text

set_option maxRecDepth 100000 in
/-- The table scheduled for the key `"a"` holds no zero byte. -/
theorem strlen_table_a : strlen table_a = Except.error Fault.readOutOfBounds := by
  decide

/-- Under the key `"a"` the scheduled table holds no zero byte: `strlen` runs
off the end of `sbox` and `crypt` faults before it looks at the text. -/
theorem crypt_key_a (sboxInit streamInit : Nat → Nat) (dest text : List Nat) :
    crypt sboxInit streamInit dest text key_a = Except.error Fault.readOutOfBounds := by
  have h1 : strlen key_a = Except.ok 1 := by decide
  rw [crypt, h1, bind_ok, ksa_sbox_fresh, ksa_table_a, bind_ok, strlen_table_a, bind_error]

/-- The key schedule called with a length of zero faults with a modulo by
zero once the first loop has filled the table. -/
theorem ksa_sbox_len_zero (s key : List Nat) (hs : 256 ≤ s.length) :
    ksa_sbox s key 0 = Except.error Fault.modByZero := by
  obtain ⟨r, hr, _⟩ := ksa_sbox_loop1_total s hs
  rw [ksa_sbox, hr, bind_ok, ksa_sbox_loop2_zero]

/-- The function `crypt` called with an empty key string faults with a
modulo by zero. -/
theorem crypt_empty_key (sboxInit streamInit : Nat → Nat) (dest text rest : List Nat) :
    crypt sboxInit streamInit dest text (0 :: rest) = Except.error Fault.modByZero := by
  have h1 : strlen (0 :: rest) = Except.ok 0 := by simp [strlen]
  rw [crypt, h1, bind_ok, ksa_sbox_fresh, ksa_sbox_loop2_zero, bind_error]

/-- A value that is missing from a list of bytes keeps it from being a
permutation of `0, ..., 255`. -/
theorem not_perm_of_missing (s : List Nat) (v : Nat) (hv : v < 256) (h : v ∉ s) :
    ¬ s.Perm (List.range 256) := by
  intro hp
  exact h (hp.mem_iff.2 (List.mem_range.2 hv))

/-- A value that a table of bytes does not hold stays out of it through the
second loop of `ksa_sbox`, which only copies entries. -/
theorem ksa_sbox_loop2_missing (key : List Nat) (len : Nat) (hlen : 0 < len)
    (hkey : len ≤ key.length) (v n : Nat) : ∀ (i j : Nat) (s : List Nat),
    i + n ≤ 256 → s.length = 256 → (∀ b ∈ s, b < 256) → v ∉ s →
    ∃ r, ksa_sbox_loop2 key len n i j s = Except.ok r ∧ r.length = 256 ∧ v ∉ r := by
  induction n with
  | zero => intro i j s _ hl _ hv; exact ⟨s, rfl, hl, hv⟩
  | succ n ih =>
    intro i j s hn hl hb hv
    have hk : i % len < key.length := Nat.lt_of_lt_of_le (Nat.mod_lt _ hlen) hkey
    have hi : i < s.length := by omega
    have hmem : s.getD i 0 ∈ s := by
      have : s.getD i 0 = s[i] := by simp [List.getD, List.getElem?_eq_getElem hi]
      rw [this]
      exact List.getElem_mem hi
    have hmod : s.getD i 0 % 256 = s.getD i 0 := Nat.mod_eq_of_lt (hb _ hmem)
    rw [ksa_sbox_loop2_step key len n i j s hlen hk hi (by omega)]
    exact ih (i + 1) _ _ (by omega) (by simpa using hl)
      (fun b hbm => by
        rcases List.mem_or_eq_of_mem_set hbm with h | h
        · exact hb b h
        · rw [h]; exact Nat.mod_lt _ (by omega))
      (fun hvm => by
        rcases List.mem_or_eq_of_mem_set hvm with h | h
        · exact hv h
        · rw [hmod] at h
          exact hv (h ▸ hmem))

/-- The first step of the key schedule overwrites entry `key[0]` of the
identity table with 0, and no later step can bring the value `key[0]` back:
for every key whose first byte is not zero the table `ksa_sbox` leaves is not
a permutation of `0, ..., 255`. -/
theorem ksa_sbox_first_key_byte_lost (junk : Nat → Nat) (key : List Nat) (len : Nat)
    (hlen : 0 < len) (hkey : len ≤ key.length) (h0 : key.getD 0 0 % 256 ≠ 0) :
    ∃ t, ksa_sbox (uninit junk 256) key len = Except.ok t ∧
      key.getD 0 0 % 256 ∉ t ∧ ¬ t.Perm (List.range 256) := by
  have hk : 0 % len < key.length := by
    rw [Nat.zero_mod]; omega
  have hstep := ksa_sbox_loop2_step key len 255 0 0 (List.range 256) hlen hk (by simp) (by simp)
  have hz : (List.range 256).getD 0 0 = 0 := by
    rw [List.getD_eq_getElem?_getD, List.getElem?_range (by omega)]
    rfl
  rw [hz, Nat.zero_mod, Nat.zero_add, Nat.zero_add] at hstep
  have hmiss : key.getD 0 0 % 256 ∉ (List.range 256).set (key.getD 0 0 % 256) 0 := by
    intro hm
    obtain ⟨k, hk1, hk2⟩ := List.getElem_of_mem hm
    rw [List.getElem_set] at hk2
    by_cases hc : key.getD 0 0 % 256 = k
    · rw [if_pos hc] at hk2
      exact h0 hk2.symm
    · rw [if_neg hc, List.getElem_range] at hk2
      exact hc hk2.symm
  obtain ⟨r, hr, _, hv⟩ := ksa_sbox_loop2_missing key len hlen hkey (key.getD 0 0 % 256) 255 1
    (key.getD 0 0 % 256) ((List.range 256).set (key.getD 0 0 % 256) 0) (by omega) (by simp)
    (fun b hbm => by
      rcases List.mem_or_eq_of_mem_set hbm with h | h
      · exact List.mem_range.1 h
      · omega)
    hmiss
  refine ⟨r, ?_, hv, not_perm_of_missing r _ (Nat.mod_lt _ (by omega)) hv⟩
  rw [ksa_sbox_fresh, hstep, hr]

/-- The loop of `crypt` faults with a read outside the keystream array as soon
as it has to visit an index past the end of `stream`. -/
theorem crypt_loop_short_stream (text stream : List Nat) (n : Nat) :
    ∀ (i : Nat) (dest : List Nat), i ≤ stream.length → stream.length < i + n →
      stream.length ≤ dest.length →
      crypt_loop text stream n i dest = Except.error Fault.readOutOfBounds := by
  induction n with
  | zero => intro i dest h1 h2 _; omega
  | succ n ih =>
    intro i dest h1 h2 h3
    rw [crypt_loop]
    by_cases ht : i < text.length
    · by_cases hs : i < stream.length
      · have hd : i < dest.length := by omega
        rw [load_ok ht, bind_ok, load_ok hs, bind_ok, store_ok _ hd, bind_ok]
        exact ih (i + 1) _ (by omega) (by omega) (by simpa using h3)
      · rw [load_ok ht, bind_ok, load_oob (by omega), bind_error]
    · rw [load_oob (by omega), bind_error]

/-! ## The claims -/

/-- C2 (code at the failing input): with the key `"Key"` and the text
`"Plaintext"`, `crypt` does not return the known answer `BB F3 16 E8 D9 40 AF
0A D3`: the keystream array is empty and the first `stream[i]` is read outside
it, whatever the buffers held before. -/
theorem crypt_known_answer_Key (sboxInit streamInit : Nat → Nat) (dest : List Nat) :
    crypt sboxInit streamInit dest text_Plaintext key_Key =
      Except.error Fault.readOutOfBounds := by
  have h : strlen text_Plaintext = Except.ok (8 + 1) := by decide
  rw [crypt_key_Key, h, bind_ok, crypt_loop_no_stream]

set_option maxRecDepth 100000 in
/-- C3 (code at the failing input): for the key `"Key"` the table `ksa_sbox`
leaves is not a permutation of `0, ..., 255`: it holds the value 0 four times
and the value 75 nowhere. -/
theorem ksa_sbox_Key_not_permutation (junk : Nat → Nat) :
    ∃ s, ksa_sbox (uninit junk 256) key_Key 3 = Except.ok s ∧ s.length = 256 ∧
      s.count 0 = 4 ∧ 75 ∉ s ∧ ¬ s.Perm (List.range 256) := by
  rw [ksa_sbox_fresh, ksa_table_Key]
  have h75 : 75 ∉ table_Key := by decide
  exact ⟨table_Key, rfl, by decide, by decide, h75,
    not_perm_of_missing table_Key 75 (by decide) h75⟩

set_option maxRecDepth 100000 in
/-- C4 (code at the failing input): on the identity table, which is a
permutation, two steps of `prga` emit `02 04` and leave a table that is not a
permutation: entry 3 was overwritten with the value 2 and the value 3 is
gone. -/
theorem prga_identity_not_permutation :
    prga [0, 0] (List.range 256) 2 = Except.ok ([2, 4], (List.range 256).set 3 2) ∧
    ((List.range 256).set 3 2).count 2 = 2 ∧
    ¬ ((List.range 256).set 3 2).Perm (List.range 256) := by
  have h3 : 3 ∉ (List.range 256).set 3 2 := by decide
  exact ⟨by decide, by decide, not_perm_of_missing _ 3 (by decide) h3⟩

set_option maxRecDepth 100000 in
/-- C5 (code at the failing input): for the key `"Key"` and the text
`"Plaintext"` the keystream of the claim exists, `prga` run for nine bytes on
the scheduled table gives `66 4A BB 80 0F BB 6A D2 12`, but `crypt` stores no
exclusive or with it: it faults on a read outside its own keystream array. -/
theorem crypt_Key_not_keystream_xor (sboxInit streamInit : Nat → Nat) (dest : List Nat) :
    ((ksa_sbox (uninit sboxInit 256) key_Key 3 >>= fun s =>
        prga (List.replicate 9 0) s 9).map Prod.fst
      = Except.ok [0x66, 0x4A, 0xBB, 0x80, 0x0F, 0xBB, 0x6A, 0xD2, 0x12]) ∧
    crypt sboxInit streamInit dest text_Plaintext key_Key =
      Except.error Fault.readOutOfBounds := by
  have h : strlen text_Plaintext = Except.ok (8 + 1) := by decide
  refine ⟨?_, by rw [crypt_key_Key, h, bind_ok, crypt_loop_no_stream]⟩
  rw [ksa_sbox_fresh, ksa_table_Key, bind_ok]
  decide

/-- C6 (code, in general): the keystream array of `crypt` has `m` bytes, `m`
being the index of the first zero byte of the scheduled table, not the length
of the text.  For a text of `n > m` bytes the loop reads `stream[m]`, which is
outside the array and which `prga` never wrote: `crypt` faults. -/
theorem crypt_text_longer_than_stream (sboxInit streamInit : Nat → Nat)
    (dest text key : List Nat) (L m n : Nat)
    (hkey : strlen key = Except.ok L)
    (hm : (ksa_sbox (uninit sboxInit 256) key L >>= strlen) = Except.ok m)
    (ht : strlen text = Except.ok n) (hmn : m < n) (hd : m ≤ dest.length) :
    crypt sboxInit streamInit dest text key = Except.error Fault.readOutOfBounds := by
  rw [ksa_sbox_fresh] at hm
  obtain ⟨out, ho, _, hcrypt⟩ := crypt_unfold key L m hkey hm
  rw [hcrypt, ht, bind_ok]
  exact crypt_loop_short_stream text out n 0 dest (by omega) (by omega) (by omega)

set_option maxRecDepth 100000 in
/-- C6 (witness): the key `"gap"`, whose keystream array has three bytes, and
the four-byte text `"text"`. -/
theorem crypt_text_longer_than_stream_witness :
    strlen key_gap = Except.ok 3 ∧
    (ksa_sbox (uninit zeroInit 256) key_gap 3 >>= strlen) = Except.ok 3 ∧
    strlen text_text = Except.ok 4 ∧ 3 < 4 ∧ 3 ≤ (List.replicate 5 0).length ∧
    crypt zeroInit zeroInit (List.replicate 5 0) text_text key_gap =
      Except.error Fault.readOutOfBounds :=
  ⟨by decide, by rw [ksa_sbox_fresh, ksa_table_gap]; decide, by decide, by decide, by decide,
    crypt_text_longer_than_stream zeroInit zeroInit (List.replicate 5 0) text_text key_gap 3 3 4
      (by decide) (by rw [ksa_sbox_fresh, ksa_table_gap]; decide) (by decide) (by decide)
      (by decide)⟩

/-- C7 (code at the failing input): with the key `"Key"`, `crypt` called on
any text of one byte or more faults at its first iteration; it does not leave
an output of the length of the text. -/
theorem crypt_Key_no_output (sboxInit streamInit : Nat → Nat) (dest text : List Nat) (n : Nat)
    (ht : strlen text = Except.ok (n + 1)) :
    crypt sboxInit streamInit dest text key_Key = Except.error Fault.readOutOfBounds := by
  rw [crypt_key_Key, ht, bind_ok, crypt_loop_no_stream]

/-- C7 (witness): the one-byte text `"P"`. -/
theorem crypt_Key_no_output_witness :
    strlen [0x50, 0] = Except.ok (0 + 1) ∧
    crypt zeroInit zeroInit [0, 0] [0x50, 0] key_Key = Except.error Fault.readOutOfBounds :=
  ⟨by decide, crypt_Key_no_output zeroInit zeroInit [0, 0] [0x50, 0] 0 (by decide)⟩

/-- C8 (amended): there is no `InvalidKey` error.  `ksa_sbox` called with the
length 0 fills the table and then computes `i % len` with `len = 0`, a modulo
by zero; `crypt` called with an empty key string does the same.  Neither
returns a table or an output. -/
theorem empty_key_modulo_by_zero (s key : List Nat) (hs : 256 ≤ s.length)
    (sboxInit streamInit : Nat → Nat) (dest text rest : List Nat) :
    ksa_sbox s key 0 = Except.error Fault.modByZero ∧
    crypt sboxInit streamInit dest text (0 :: rest) = Except.error Fault.modByZero :=
  ⟨ksa_sbox_len_zero s key hs, crypt_empty_key sboxInit streamInit dest text rest⟩

set_option maxRecDepth 100000 in
/-- C8 (witness): a table buffer of 256 bytes, an empty key and the text
`"text"`. -/
theorem empty_key_modulo_by_zero_witness :
    256 ≤ (List.replicate 256 0).length ∧
    ksa_sbox (List.replicate 256 0) [0] 0 = Except.error Fault.modByZero ∧
    crypt zeroInit zeroInit (List.replicate 5 0) text_text (0 :: [])
      = Except.error Fault.modByZero :=
  ⟨by decide, empty_key_modulo_by_zero (List.replicate 256 0) [0] (by decide) zeroInit zeroInit
    (List.replicate 5 0) text_text []⟩

/-- C8 (counterexample): `ksa_sbox` on the identity table with an empty key,
and `crypt` on the text `"abc"` with an empty key string, end in a modulo by
zero, not in a rejection of the key. -/
theorem empty_key_counterexample :
    ksa_sbox (List.range 256) [] 0 = Except.error Fault.modByZero ∧
    crypt zeroInit zeroInit (List.replicate 4 0) text_abc [0] = Except.error Fault.modByZero :=
  ⟨ksa_sbox_len_zero _ _ (by simp), crypt_empty_key _ _ _ _ _⟩

/-- C9: two keys of at least 256 bytes that agree on their first 256 bytes
make `ksa_sbox` return the same table. -/
theorem ksa_sbox_long_key (s k1 k2 : List Nat) (hs : 256 ≤ s.length)
    (h1 : 256 ≤ k1.length) (h2 : 256 ≤ k2.length) (h : k1.take 256 = k2.take 256) :
    ∃ t, ksa_sbox s k1 k1.length = Except.ok t ∧ ksa_sbox s k2 k2.length = Except.ok t := by
  obtain ⟨r, hr, hrl⟩ := ksa_sbox_loop1_total s hs
  obtain ⟨t, ht, _⟩ := ksa_sbox_loop2_total k1 k1.length (by omega) (Nat.le_refl _) 256 0 0 r
    (by omega) (by omega)
  have hsame : ∀ i, i < 256 → k1.getD (i % k1.length) 0 = k2.getD (i % k2.length) 0 := by
    intro i hi
    rw [Nat.mod_eq_of_lt (by omega), Nat.mod_eq_of_lt (by omega), List.getD_eq_getElem?_getD,
      List.getD_eq_getElem?_getD, ← List.getElem?_take_of_lt hi, h, List.getElem?_take_of_lt hi]
  have hc := ksa_sbox_loop2_congr k1 k2 k1.length k2.length (by omega) (by omega)
    (Nat.le_refl _) (Nat.le_refl _) hsame 256 0 0 r (by omega) (by omega)
  refine ⟨t, ?_, ?_⟩
  · rw [ksa_sbox, hr, bind_ok, ht]
  · rw [ksa_sbox, hr, bind_ok, ← hc, ht]

set_option maxRecDepth 100000 in
/-- C9 (witness): a key of 256 bytes `01` and the same key followed by the 44
bytes `02`. -/
theorem ksa_sbox_long_key_witness :
    256 ≤ (List.replicate 256 0).length ∧
    256 ≤ (List.replicate 256 1).length ∧
    256 ≤ (List.replicate 256 1 ++ List.replicate 44 2).length ∧
    (List.replicate 256 1).take 256 = (List.replicate 256 1 ++ List.replicate 44 2).take 256 ∧
    ∃ t, ksa_sbox (List.replicate 256 0) (List.replicate 256 1) (List.replicate 256 1).length
        = Except.ok t ∧
      ksa_sbox (List.replicate 256 0) (List.replicate 256 1 ++ List.replicate 44 2)
        (List.replicate 256 1 ++ List.replicate 44 2).length = Except.ok t :=
  ⟨by decide, by decide, by decide, by decide,
    ksa_sbox_long_key (List.replicate 256 0) (List.replicate 256 1)
      (List.replicate 256 1 ++ List.replicate 44 2) (by decide) (by decide) (by decide)
      (by decide)⟩

/-- C10 (code at the failing input): under the key `"a"` the scheduled table
holds no zero byte, so `strlen(sbox)`, the size of the keystream array, is read
from beyond the 256 bytes of `sbox`; `crypt` has no output that the key and the
text determine, whatever the text is. -/
theorem crypt_key_a_no_defined_output (sboxInit streamInit : Nat → Nat) (dest text : List Nat) :
    (ksa_sbox (uninit sboxInit 256) key_a 1 >>= strlen) = Except.error Fault.readOutOfBounds ∧
    crypt sboxInit streamInit dest text key_a = Except.error Fault.readOutOfBounds := by
  refine ⟨?_, crypt_key_a sboxInit streamInit dest text⟩
  rw [ksa_sbox_fresh, ksa_table_a, bind_ok, strlen_table_a]

/-! ## Facts about the reference procedures -/

/-- A true exchange of two entries keeps every value of the table in it. -/
theorem mem_spec_swap (S : List Nat) (i j v : Nat) (hi : i < S.length) (hj : j < S.length)
    (hv : v ∈ S) : v ∈ spec_swap S i j := by
  obtain ⟨k, hk, hkv⟩ := List.getElem_of_mem hv
  have hSk : S[k]? = some v := by rw [List.getElem?_eq_getElem hk, hkv]
  have hget : ∀ p, (spec_swap S i j)[p]? =
      if j = p then some (S.getD i 0) else if i = p then some (S.getD j 0) else S[p]? := by
    intro p
    unfold spec_swap
    rw [List.getElem?_set, List.getElem?_set]
    by_cases h1 : j = p
    · subst h1
      simp [hj]
    · by_cases h2 : i = p
      · subst h2
        simp [h1, hi]
      · simp [h1, h2]
  rw [List.mem_iff_getElem?]
  by_cases h1 : i = k
  · refine ⟨j, ?_⟩
    rw [hget j, if_pos rfl, List.getD_eq_getElem?_getD, h1, hSk]
    rfl
  · by_cases h2 : j = k
    · by_cases h3 : j = i
      · exact absurd (h3 ▸ h2 : i = k) h1
      · refine ⟨i, ?_⟩
        rw [hget i, if_neg h3, if_pos rfl, List.getD_eq_getElem?_getD, h2, hSk]
        rfl
    · exact ⟨k, by rw [hget k, if_neg h2, if_neg h1, hSk]⟩

/-- The length of a table does not change in an exchange. -/
theorem length_spec_swap (S : List Nat) (i j : Nat) : (spec_swap S i j).length = S.length := by
  simp [spec_swap]

/-- The reference key schedule keeps every value of the table in it. -/
theorem mem_spec_schedule_loop (key : List Nat) (L v n : Nat) : ∀ (i j : Nat) (S : List Nat),
    i + n ≤ 256 → S.length = 256 → v ∈ S → v ∈ spec_schedule_loop key L n i j S := by
  induction n with
  | zero => intro i j S _ _ hv; exact hv
  | succ n ih =>
    intro i j S hn hl hv
    rw [spec_schedule_loop]
    exact ih (i + 1) _ _ (by omega) (by rw [length_spec_swap, hl])
      (mem_spec_swap S i _ v (by omega) (by rw [hl]; exact Nat.mod_lt _ (by omega)) hv)

/-- For a key whose scheduled table holds a zero byte, `crypt` on the empty
text runs no iteration of its last loop and returns `dest` as it was. -/
theorem crypt_empty_text (key : List Nat) (L m : Nat) (hkey : strlen key = Except.ok L)
    (hm : (ksa_sbox_loop2 key L 256 0 0 (List.range 256) >>= strlen) = Except.ok m)
    (sboxInit streamInit : Nat → Nat) (dest rest : List Nat) :
    crypt sboxInit streamInit dest (0 :: rest) key = Except.ok dest := by
  obtain ⟨out, _, _, hcrypt⟩ := crypt_unfold key L m hkey hm
  have h0 : strlen (0 :: rest) = Except.ok 0 := by simp [strlen]
  rw [hcrypt, h0, bind_ok, crypt_loop]

/-! ## The claims, continued -/

/-- C11 (code at the failing input): with the key `"a"`, `crypt` on the empty
message does not return an empty result: the scheduled table holds no zero
byte, `strlen(sbox)` reads past the 256 bytes of `sbox`, and `crypt` faults
before it reaches the loop that would store nothing. -/
theorem crypt_empty_message_key_a (sboxInit streamInit : Nat → Nat) (dest rest : List Nat) :
    strlen (0 :: rest) = Except.ok 0 ∧
    crypt sboxInit streamInit dest (0 :: rest) key_a = Except.error Fault.readOutOfBounds :=
  ⟨by simp [strlen], crypt_key_a sboxInit streamInit dest (0 :: rest)⟩

set_option maxRecDepth 100000 in
/-- C12 (code at the failing input): for the key `"Key"` the table `ksa_sbox`
returns is not the table of the reference key schedule: the reference table
holds the value 75, the table of the code does not. -/
theorem ksa_sbox_Key_not_reference (junk : Nat → Nat) :
    ∃ t, ksa_sbox (uninit junk 256) key_Key 3 = Except.ok t ∧
      75 ∉ t ∧ 75 ∈ spec_schedule key_Key 3 ∧ t ≠ spec_schedule key_Key 3 := by
  have h75 : 75 ∉ table_Key := by decide
  have href : 75 ∈ spec_schedule key_Key 3 :=
    mem_spec_schedule_loop key_Key 3 75 256 0 0 (List.range 256) (by omega) (by simp)
      (List.mem_range.2 (by omega))
  rw [ksa_sbox_fresh, ksa_table_Key]
  exact ⟨table_Key, rfl, h75, href, fun h => h75 (h ▸ href)⟩

set_option maxRecDepth 100000 in
/-- C13 (code at the failing input): on the identity table and for two output
bytes, `prga` emits `02 04` and leaves entry 2 unchanged, where the reference
generator emits `02 05` and exchanges the entries 2 and 3. -/
theorem prga_identity_not_reference :
    prga [0, 0] (List.range 256) 2 = Except.ok ([2, 4], (List.range 256).set 3 2) ∧
    spec_generate (List.range 256) 2 = ([2, 5], ((List.range 256).set 2 3).set 3 2) ∧
    [2, 4] ≠ [2, 5] ∧
    (List.range 256).set 3 2 ≠ ((List.range 256).set 2 3).set 3 2 := by
  decide

/-- C14: with the requested length 0, `prga` runs no iteration: it returns
`dest` and the S-box as they were. -/
theorem prga_zero_length (dest s : List Nat) :
    prga dest s 0 = Except.ok (dest, s) :=
  rfl

/-- A longer run of the loop of `prga` from the same state writes, at the
positions of a shorter run, the bytes the shorter run writes; both runs leave
the positions below the start alone. -/
theorem prga_loop_prefix (n : Nat) : ∀ (k i j : Nat) (s : List Nat), 256 ≤ s.length →
    ∀ (x : Nat) (dest1 dest2 : List Nat), x + (n + k) ≤ dest1.length → x + n ≤ dest2.length →
    ∃ (d1 t1 d2 t2 : List Nat),
      prga_loop (n + k) x i j dest1 s = Except.ok (d1, t1) ∧
      prga_loop n x i j dest2 s = Except.ok (d2, t2) ∧
      (∀ p, x ≤ p → p < x + n → d1[p]? = d2[p]?) ∧
      (∀ p, p < x → d1[p]? = dest1[p]?) ∧ (∀ p, p < x → d2[p]? = dest2[p]?) := by
  induction n with
  | zero =>
    intro k i j s hs x dest1 dest2 h1 _
    obtain ⟨out, s2, _, _, _, hspec⟩ := prga_loop_spec k i j s hs
    obtain ⟨d, hd, _, hget⟩ := hspec x dest1 (by omega)
    refine ⟨d, s2, dest2, s, by rw [Nat.zero_add]; exact hd, rfl, ?_, ?_, fun _ _ => rfl⟩
    · intro p hp1 hp2
      omega
    · intro p hp
      have : ¬ (x ≤ p ∧ p < x + k) := by omega
      rw [hget p, if_neg this]
  | succ n ih =>
    intro k i j s hs x dest1 dest2 h1 h2
    have e : n + 1 + k = (n + k) + 1 := by omega
    obtain ⟨i2, j2, v, t, _, ht, hstep⟩ := prga_loop_step i j s hs
    obtain ⟨d1, t1, d2, t2, hr1, hr2, hagree, hf1, hf2⟩ := ih k i2 j2 t (by omega) (x + 1)
      (dest1.set x v) (dest2.set x v) (by simp; omega) (by simp; omega)
    refine ⟨d1, t1, d2, t2, ?_, ?_, ?_, ?_, ?_⟩
    · rw [e, hstep (n + k) x dest1 (by omega)]
      exact hr1
    · rw [hstep n x dest2 (by omega)]
      exact hr2
    · intro p hp1 hp2
      by_cases hpx : p = x
      · subst hpx
        rw [hf1 p (by omega), hf2 p (by omega), List.getElem?_set_self (by omega),
          List.getElem?_set_self (by omega)]
      · exact hagree p (by omega) (by omega)
    · intro p hp
      rw [hf1 p (by omega), List.getElem?_set_ne (by omega)]
    · intro p hp
      rw [hf2 p (by omega), List.getElem?_set_ne (by omega)]

/-- The key schedule reads a key written twice as it reads the key. -/
theorem getD_append_self_mod (K : List Nat) (hK : 0 < K.length) (i : Nat) :
    (K ++ K).getD (i % (2 * K.length)) 0 = K.getD (i % K.length) 0 := by
  have hr : i % (2 * K.length) < 2 * K.length := Nat.mod_lt _ (by omega)
  have hm : i % K.length = i % (2 * K.length) % K.length :=
    (Nat.mod_mod_of_dvd i (Dvd.intro_left 2 rfl)).symm
  by_cases h : i % (2 * K.length) < K.length
  · rw [List.getD_append _ _ _ _ h, hm, Nat.mod_eq_of_lt h]
  · have h2 : K.length ≤ i % (2 * K.length) := by omega
    have h3 : i % (2 * K.length) % K.length = i % (2 * K.length) - K.length := by
      rw [Nat.mod_eq_sub_mod h2, Nat.mod_eq_of_lt (by omega)]
    rw [List.getD_append_right _ _ _ _ h2, hm, h3]

/-- C15: when the table has 256 entries, the key has `L ≥ 1` bytes and `dest`
has `N` bytes, no access of `ksa_sbox` or of `prga` leaves its buffer: both run
to their end without a fault and keep the sizes of the buffers. -/
theorem ksa_sbox_prga_in_bounds (s key dest : List Nat) (L N : Nat) (hs : s.length = 256)
    (hL : 0 < L) (hk : key.length = L) (hd : dest.length = N) :
    (∃ t, ksa_sbox s key L = Except.ok t ∧ t.length = 256) ∧
    (∃ d t, prga dest s N = Except.ok (d, t) ∧ d.length = N ∧ t.length = 256) := by
  constructor
  · obtain ⟨r, hr, hrl⟩ := ksa_sbox_loop1_total s (by omega)
    obtain ⟨t, ht, htl⟩ := ksa_sbox_loop2_total key L hL (by omega) 256 0 0 r (by omega)
      (by omega)
    exact ⟨t, by rw [ksa_sbox, hr, bind_ok, ht], by omega⟩
  · obtain ⟨out, t, _, htl, _, hspec⟩ := prga_loop_spec N 0 0 s (by omega)
    obtain ⟨d, hd1, hdl, _⟩ := hspec 0 dest (by omega)
    exact ⟨d, t, hd1, by omega, by omega⟩

set_option maxRecDepth 100000 in
/-- C15 (witness): the identity table, the key `4B 65 79` and a `dest` of two
bytes. -/
theorem ksa_sbox_prga_in_bounds_witness :
    (List.range 256).length = 256 ∧ 0 < 3 ∧ [0x4B, 0x65, 0x79].length = 3 ∧
    [0, 0].length = 2 ∧
    (∃ t, ksa_sbox (List.range 256) [0x4B, 0x65, 0x79] 3 = Except.ok t ∧ t.length = 256) ∧
    (∃ d t, prga [0, 0] (List.range 256) 2 = Except.ok (d, t) ∧ d.length = 2 ∧
      t.length = 256) :=
  ⟨by decide, by decide, by decide, by decide,
    ksa_sbox_prga_in_bounds (List.range 256) [0x4B, 0x65, 0x79] [0, 0] 3 2 (by decide)
      (by decide) (by decide) (by decide)⟩

/-- Where the text fits the keystream, two texts of the same length encrypted
under one key differ, byte by byte, as the texts do. -/
theorem crypt_xor_of_two_texts (key : List Nat) (L m : Nat) (hkey : strlen key = Except.ok L)
    (hm : (ksa_sbox_loop2 key L 256 0 0 (List.range 256) >>= strlen) = Except.ok m)
    (a1 b1 a2 b2 : Nat → Nat) (dest1 dest2 text1 text2 : List Nat) (n : Nat)
    (h1 : strlen text1 = Except.ok n) (h2 : strlen text2 = Except.ok n) (hnm : n ≤ m)
    (hd1 : n ≤ dest1.length) (hd2 : n ≤ dest2.length)
    (hw1 : ∀ b ∈ text1, b < 256) (hw2 : ∀ b ∈ text2, b < 256) :
    ∃ c1 c2, crypt a1 b1 dest1 text1 key = Except.ok c1 ∧
      crypt a2 b2 dest2 text2 key = Except.ok c2 ∧
      ∀ k, k < n → c1.getD k 0 ^^^ c2.getD k 0 = text1.getD k 0 ^^^ text2.getD k 0 := by
  obtain ⟨out, ho, hb, hcrypt⟩ := crypt_unfold key L m hkey hm
  have ht1 := strlen_lt text1 n h1
  have ht2 := strlen_lt text2 n h2
  obtain ⟨c1, hc1, _, hg1⟩ := crypt_loop_spec text1 out n 0 dest1 (by omega) (by omega)
    (by omega)
  obtain ⟨c2, hc2, _, hg2⟩ := crypt_loop_spec text2 out n 0 dest2 (by omega) (by omega)
    (by omega)
  refine ⟨c1, c2, by rw [hcrypt, h1]; exact hc1, by rw [hcrypt, h2]; exact hc2, fun k hk => ?_⟩
  have hr : 0 ≤ k ∧ k < 0 + n := by omega
  have e1 : c1.getD k 0 = (text1.getD k 0 ^^^ out.getD k 0) % 256 := by
    rw [List.getD_eq_getElem?_getD, hg1 k, if_pos hr]
    rfl
  have e2 : c2.getD k 0 = (text2.getD k 0 ^^^ out.getD k 0) % 256 := by
    rw [List.getD_eq_getElem?_getD, hg2 k, if_pos hr]
    rfl
  have ho1 : out.getD k 0 < 2 ^ 8 := getD_lt_of_forall out hb k
  have hx1 : text1.getD k 0 ^^^ out.getD k 0 < 2 ^ 8 :=
    Nat.xor_lt_two_pow (getD_lt_of_forall text1 hw1 k) ho1
  have hx2 : text2.getD k 0 ^^^ out.getD k 0 < 2 ^ 8 :=
    Nat.xor_lt_two_pow (getD_lt_of_forall text2 hw2 k) ho1
  have m1 : (text1.getD k 0 ^^^ out.getD k 0) % 256 = text1.getD k 0 ^^^ out.getD k 0 :=
    Nat.mod_eq_of_lt (by omega)
  have m2 : (text2.getD k 0 ^^^ out.getD k 0) % 256 = text2.getD k 0 ^^^ out.getD k 0 :=
    Nat.mod_eq_of_lt (by omega)
  rw [e1, e2, m1, m2, Nat.xor_assoc,
    Nat.xor_comm (text2.getD k 0), ← Nat.xor_assoc (out.getD k 0), Nat.xor_self,
    Nat.zero_xor]

/-- C16 (code at the failing input): the texts `"text"` and `"test"` have four
bytes, the keystream array of the key `"gap"` has three.  `crypt` faults on
both texts when it reads `stream[3]`, so it returns no pair of outputs whose
exclusive or could be compared with that of the texts. -/
theorem crypt_gap_two_messages (sboxInit streamInit : Nat → Nat) :
    crypt sboxInit streamInit (List.replicate 5 0) text_text key_gap
      = Except.error Fault.readOutOfBounds ∧
    crypt sboxInit streamInit (List.replicate 5 0) [0x74, 0x65, 0x73, 0x74, 0] key_gap
      = Except.error Fault.readOutOfBounds := by
  rw [crypt_key_gap, crypt_key_gap]
  decide

/-- C17: on a buffer of 256 bytes the table `ksa_sbox` leaves does not depend
on what the buffer held before: two calls with the same key and any two prior
contents return the same table.  The key is only read: `ksa_sbox` has no
store into `key`, and the embedding returns the one buffer it stores into. -/
theorem ksa_sbox_fresh_table (s1 s2 key : List Nat) (L : Nat) (h1 : s1.length = 256)
    (h2 : s2.length = 256) (hL : 0 < L) (hk : L ≤ key.length) :
    ∃ t, ksa_sbox s1 key L = Except.ok t ∧ ksa_sbox s2 key L = Except.ok t := by
  obtain ⟨t, ht, _⟩ := ksa_sbox_loop2_total key L hL hk 256 0 0 (List.range 256) (by omega)
    (by simp)
  exact ⟨t, by rw [ksa_sbox, ksa_sbox_loop1_fresh s1 h1, bind_ok, ht],
    by rw [ksa_sbox, ksa_sbox_loop1_fresh s2 h2, bind_ok, ht]⟩

set_option maxRecDepth 100000 in
/-- C17 (witness): a buffer of 256 bytes `00`, a buffer of 256 bytes `FF` and
the key `"Key"`. -/
theorem ksa_sbox_fresh_table_witness :
    (List.replicate 256 0).length = 256 ∧ (List.replicate 256 0xFF).length = 256 ∧ 0 < 3 ∧
    3 ≤ key_Key.length ∧
    ∃ t, ksa_sbox (List.replicate 256 0) key_Key 3 = Except.ok t ∧
      ksa_sbox (List.replicate 256 0xFF) key_Key 3 = Except.ok t :=
  ⟨by decide, by decide, by decide, by decide,
    ksa_sbox_fresh_table (List.replicate 256 0) (List.replicate 256 0xFF) key_Key 3
      (by decide) (by decide) (by decide) (by decide)⟩

/-- C18: for a table of 256 entries and lengths `n ≤ m`, the first `n` bytes
`prga` emits for the requested length `m` are the `n` bytes it emits for the
requested length `n`. -/
theorem prga_prefix (s dest1 dest2 : List Nat) (n m : Nat) (hs : 256 ≤ s.length)
    (hnm : n ≤ m) (h1 : m ≤ dest1.length) (h2 : n ≤ dest2.length) :
    ∃ (d1 t1 d2 t2 : List Nat), prga dest1 s m = Except.ok (d1, t1) ∧
      prga dest2 s n = Except.ok (d2, t2) ∧ d1.take n = d2.take n := by
  obtain ⟨k, rfl⟩ := Nat.exists_eq_add_of_le hnm
  obtain ⟨d1, t1, d2, t2, hr1, hr2, hagree, _, _⟩ := prga_loop_prefix n k 0 0 s hs 0 dest1 dest2
    (by omega) (by omega)
  refine ⟨d1, t1, d2, t2, hr1, hr2, ?_⟩
  apply List.ext_getElem?
  intro p
  rw [List.getElem?_take, List.getElem?_take]
  by_cases hp : p < n
  · rw [if_pos hp, if_pos hp]
    exact hagree p (by omega) (by omega)
  · rw [if_neg hp, if_neg hp]

set_option maxRecDepth 100000 in
/-- C18 (witness): the identity table, one byte against two bytes. -/
theorem prga_prefix_witness :
    256 ≤ (List.range 256).length ∧ 1 ≤ 2 ∧ 2 ≤ [0, 0].length ∧ 1 ≤ [7].length ∧
    ∃ (d1 t1 d2 t2 : List Nat), prga [0, 0] (List.range 256) 2 = Except.ok (d1, t1) ∧
      prga [7] (List.range 256) 1 = Except.ok (d2, t2) ∧ d1.take 1 = d2.take 1 :=
  ⟨by decide, by decide, by decide, by decide,
    prga_prefix (List.range 256) [0, 0] [7] 1 2 (by decide) (by decide) (by decide)
      (by decide)⟩

/-- C19: for a key `K` of `L ≥ 1` bytes, `ksa_sbox` on `K` written twice, with
the length `2 * L`, returns the table it returns on `K` with the length `L`. -/
theorem ksa_sbox_repeated_key (s K : List Nat) (hs : 256 ≤ s.length) (hK : 0 < K.length) :
    ∃ t, ksa_sbox s (K ++ K) (2 * K.length) = Except.ok t ∧
      ksa_sbox s K K.length = Except.ok t := by
  obtain ⟨r, hr, hrl⟩ := ksa_sbox_loop1_total s hs
  obtain ⟨t, ht, _⟩ := ksa_sbox_loop2_total K K.length hK (Nat.le_refl _) 256 0 0 r
    (by omega) (by omega)
  have hc := ksa_sbox_loop2_congr (K ++ K) K (2 * K.length) K.length (by omega) hK
    (by rw [List.length_append]; omega) (Nat.le_refl _)
    (fun i _ => getD_append_self_mod K hK i) 256 0 0 r (by omega) (by omega)
  exact ⟨t, by rw [ksa_sbox, hr, bind_ok, hc, ht], by rw [ksa_sbox, hr, bind_ok, ht]⟩

set_option maxRecDepth 100000 in
/-- C19 (witness): the key `4B 65 79` and the key `4B 65 79 4B 65 79`. -/
theorem ksa_sbox_repeated_key_witness :
    256 ≤ (List.replicate 256 0).length ∧ 0 < [0x4B, 0x65, 0x79].length ∧
    ∃ t, ksa_sbox (List.replicate 256 0) ([0x4B, 0x65, 0x79] ++ [0x4B, 0x65, 0x79])
        (2 * [0x4B, 0x65, 0x79].length) = Except.ok t ∧
      ksa_sbox (List.replicate 256 0) [0x4B, 0x65, 0x79] [0x4B, 0x65, 0x79].length
        = Except.ok t :=
  ⟨by decide, by decide,
    ksa_sbox_repeated_key (List.replicate 256 0) [0x4B, 0x65, 0x79] (by decide) (by decide)⟩

end Arcfour
